import Mathlib

/-!
Verification of the SAP (Semi-Analytic Primal) contact-model machinery and of
the scalar initial-value-problem wrapper of this repository.

The SAP model implementation itself (`SapModel`, `SapConstraintBundle`,
`ContactProblemGraph`, the participation permutations) is not among the
repository's files; only its unit tests are. Those components are therefore
modelled here from the specification, over exact arithmetic (`ℚ`, and `ℝ`
where a Frobenius norm is taken), and the claims are settled against these
spec-modelled definitions. Forward-mode automatic differentiation (the
reference the tests compare gradients and Hessians against) is embedded as
dual numbers carrying a value and a full derivative vector, mirroring
`AutoDiffXd`.

The scalar initial-value-problem wrapper `ScalarInitialValueProblem` is a
repository source file and is embedded directly, parameterized over the
wrapped vector initial-value problem (whose implementation is external).
-/

/-- Forward-mode dual number over `ℚ`: a value together with its derivative
with respect to `n` independent variables. This models `AutoDiffXd` with `n`
derivatives, as used by the repository's tests to obtain reference gradients
and Hessians. -/
structure AD (n : ℕ) where
  val : ℚ
  der : Fin n → ℚ

namespace AD

instance {n} : Add (AD n) := ⟨fun a b => ⟨a.val + b.val, fun j => a.der j + b.der j⟩⟩

instance {n} : Zero (AD n) := ⟨⟨0, fun _ => 0⟩⟩

instance {n} : Neg (AD n) := ⟨fun a => ⟨-a.val, fun j => -a.der j⟩⟩

instance {n} : Sub (AD n) := ⟨fun a b => ⟨a.val - b.val, fun j => a.der j - b.der j⟩⟩

/-- Product rule: the derivative of a product is `a·b' + b·a'`. -/
instance {n} : Mul (AD n) := ⟨fun a b => ⟨a.val * b.val, fun j => a.val * b.der j + b.val * a.der j⟩⟩

instance {n} : AddCommMonoid (AD n) where
  add_assoc a b c :=
    congrArg₂ AD.mk (add_assoc a.val b.val c.val)
      (funext fun j => add_assoc (a.der j) (b.der j) (c.der j))
  zero_add a := congrArg₂ AD.mk (zero_add a.val) (funext fun j => zero_add (a.der j))
  add_zero a := congrArg₂ AD.mk (add_zero a.val) (funext fun j => add_zero (a.der j))
  add_comm a b :=
    congrArg₂ AD.mk (add_comm a.val b.val) (funext fun j => add_comm (a.der j) (b.der j))
  nsmul := nsmulRec

/-- A constant (an input independent of the differentiation variables): its
derivative vector is zero. -/
def const {n} (c : ℚ) : AD n := ⟨c, fun _ => 0⟩

/-- Taking the value of a dual number is additive. -/
def valHom {n} : AD n →+ ℚ := ⟨⟨AD.val, rfl⟩, fun _ _ => rfl⟩

/-- Taking one derivative component of a dual number is additive. -/
def derHom {n} (j : Fin n) : AD n →+ ℚ := ⟨⟨fun a => a.der j, rfl⟩, fun _ _ => rfl⟩

end AD

/-- Modelled from the spec: the projection behaviors of the constraint types
exercised by this repository (`SapConstraint::Project`). `identity` is the
spring constraint's projection `γ = P(y) = y`; `max0` is the dummy test
constraint's componentwise projection `γ = P(y) = max(0, y)` whose derivative
is the Heaviside function `y ≥ 0 ? 1 : 0`. The spec's constraint contract is
pluggable; these are the two instances the repository provides. -/
inductive SapProjection where
  | identity : SapProjection
  | max0 : SapProjection
deriving DecidableEq

/-- Projection applied to one constraint equation, on plain scalars. -/
def SapProjection.apply : SapProjection → ℚ → ℚ
  | .identity, y => y
  | .max0, y => if y < 0 then 0 else y

/-- Derivative `∂γ/∂y` of the projection (a sub-derivative at the kink): the
identity projection has derivative 1; `max(0, y)` has derivative
`y ≥ 0 ? 1 : 0`, exactly as the test constraint's `Project` fills `dPdy`. -/
def SapProjection.dapply : SapProjection → ℚ → ℚ
  | .identity, _ => 1
  | .max0, y => if y < 0 then 0 else 1

/-- Projection applied on dual numbers, mirroring what `AutoDiffXd` computes
through `cwiseMax(0)`: the comparison is made on the value and the taken
branch's derivative is propagated (at the kink `y = 0` the `y` branch is
taken, consistent with `dapply`). -/
def SapProjection.applyAD {n} : SapProjection → AD n → AD n
  | .identity, y => y
  | .max0, y => if y.val < 0 then 0 else y

/-- Modelled from the spec: the immutable data of a built SAP model
(`SapModel` and its `SapConstraintBundle`), already reduced to participating
degrees of freedom. `nv` is the reduced velocity count, `nc` the total
constraint-equation count. `A` is the block-diagonal dynamics matrix assembled
dense, `vstar` the reduced free-motion velocity, `J` the bundle's aggregate
constraint Jacobian, `R` the strictly positive diagonal regularization,
`vhat` the bias velocity, `proj` each equation's projection behavior, and
`constraintOf` the constraint (in cluster order, out of `numConstraints`)
each equation belongs to. -/
structure SapModelData (nv nc : ℕ) where
  A : Matrix (Fin nv) (Fin nv) ℚ
  vstar : Fin nv → ℚ
  J : Matrix (Fin nc) (Fin nv) ℚ
  R : Fin nc → ℚ
  vhat : Fin nc → ℚ
  proj : Fin nc → SapProjection
  numConstraints : ℕ
  constraintOf : Fin nc → ℕ

namespace SapModelData

variable {nv nc : ℕ}

/-- Modelled from the spec: `EvalConstraintVelocities(ctx) = J·v`. -/
def constraintVelocities (M : SapModelData nv nc) (v : Fin nv → ℚ) : Fin nc → ℚ :=
  M.J.mulVec v

/-- Modelled from the spec: `CalcUnprojectedImpulses`, `y = −R⁻¹ ⊙ (vc − v̂)`
componentwise, where `vc = J·v`. -/
def unprojectedImpulses (M : SapModelData nv nc) (v : Fin nv → ℚ) : Fin nc → ℚ :=
  fun k => -(M.R k)⁻¹ * (M.constraintVelocities v k - M.vhat k)

/-- Modelled from the spec: `EvalImpulses`, the projected impulses
`γ = P(y)` obtained by applying each constraint's projection to its slice of
the unprojected impulses. -/
def EvalImpulses (M : SapModelData nv nc) (v : Fin nv → ℚ) : Fin nc → ℚ :=
  fun k => (M.proj k).apply (M.unprojectedImpulses v k)

/-- Modelled from the spec: `EvalMomentumGain(ctx) = A·(v − v*)`. -/
def EvalMomentumGain (M : SapModelData nv nc) (v : Fin nv → ℚ) : Fin nv → ℚ :=
  M.A.mulVec (fun j => v j - M.vstar j)

/-- Modelled from the spec: `EvalMomentumCost(ctx) = 0.5·(v−v*)ᵗ·A·(v−v*)`. -/
def EvalMomentumCost (M : SapModelData nv nc) (v : Fin nv → ℚ) : ℚ :=
  (1 / 2) * Matrix.dotProduct (fun i => v i - M.vstar i) (M.A.mulVec (fun j => v j - M.vstar j))

/-- Modelled from the spec: `EvalCost(ctx) = EvalMomentumCost +
0.5·Σᵢ γᵢᵗ·Rᵢ·γᵢ`, the regularizer term summed per constraint over the
equations belonging to it. -/
def EvalCost (M : SapModelData nv nc) (v : Fin nv → ℚ) : ℚ :=
  M.EvalMomentumCost v +
    (1 / 2) * ∑ i ∈ Finset.range M.numConstraints,
      ∑ k ∈ Finset.univ.filter (fun k => M.constraintOf k = i),
        M.R k * M.EvalImpulses v k * M.EvalImpulses v k

/-- Modelled from the spec: `EvalGeneralizedImpulses = Jᵗ·γ`. -/
def EvalGeneralizedImpulses (M : SapModelData nv nc) (v : Fin nv → ℚ) : Fin nv → ℚ :=
  M.J.transpose.mulVec (M.EvalImpulses v)

/-- Modelled from the spec: `EvalCostGradient(ctx)`, the momentum residual
minus the generalized constraint force. -/
def EvalCostGradient (M : SapModelData nv nc) (v : Fin nv → ℚ) : Fin nv → ℚ :=
  fun i => M.EvalMomentumGain v i - M.EvalGeneralizedImpulses v i

/-- Modelled from the spec: the per-equation diagonal of the constraints
Hessian blocks `Gᵢ = (∂P/∂y)·Rᵢ⁻¹` returned by `EvalConstraintsHessian`.
With the repository's componentwise projections every block `Gᵢ` is
diagonal, so the block-diagonal matrix `G` they assemble into is the
diagonal matrix of this vector. -/
def constraintsHessianDiag (M : SapModelData nv nc) (v : Fin nv → ℚ) : Fin nc → ℚ :=
  fun k => (M.proj k).dapply (M.unprojectedImpulses v k) * (M.R k)⁻¹

/-- Modelled from the spec: the dense cost Hessian assembled from the
per-constraint blocks via `H = A + Jᵗ·G·J` with `G` block-diagonal. -/
def hessianMatrix (M : SapModelData nv nc) (v : Fin nv → ℚ) : Matrix (Fin nv) (Fin nv) ℚ :=
  M.A + M.J.transpose * (Matrix.diagonal (M.constraintsHessianDiag v) * M.J)

/-- The velocity vector seeded for forward-mode differentiation: component
`i` has value `v i` and derivative vector the `i`-th unit vector, as
`InitializeAutoDiff` does in the test. -/
def vSeed {nv : ℕ} (v : Fin nv → ℚ) : Fin nv → AD nv :=
  fun i => ⟨v i, fun j => if j = i then 1 else 0⟩

/-- Constraint velocities `J·v` evaluated in dual-number arithmetic. -/
def constraintVelocitiesAD (M : SapModelData nv nc) (v : Fin nv → ℚ) : Fin nc → AD nv :=
  fun k => ∑ j, AD.const (M.J k j) * vSeed v j

/-- Unprojected impulses `y = −R⁻¹ ⊙ (J·v − v̂)` evaluated in dual-number
arithmetic. -/
def unprojectedImpulsesAD (M : SapModelData nv nc) (v : Fin nv → ℚ) : Fin nc → AD nv :=
  fun k => AD.const (-(M.R k)⁻¹) * (M.constraintVelocitiesAD v k - AD.const (M.vhat k))

/-- Projected impulses `γ = P(y)` evaluated in dual-number arithmetic. -/
def impulsesAD (M : SapModelData nv nc) (v : Fin nv → ℚ) : Fin nc → AD nv :=
  fun k => (M.proj k).applyAD (M.unprojectedImpulsesAD v k)

/-- `EvalCost` evaluated in dual-number arithmetic: the forward-mode
automatic-differentiation pass whose derivative vector is the reference
gradient the tests compare against. -/
def costAD (M : SapModelData nv nc) (v : Fin nv → ℚ) : AD nv :=
  AD.const (1 / 2) *
      (∑ i, (vSeed v i - AD.const (M.vstar i)) *
        ∑ j, AD.const (M.A i j) * (vSeed v j - AD.const (M.vstar j))) +
    AD.const (1 / 2) *
      ∑ i ∈ Finset.range M.numConstraints,
        ∑ k ∈ Finset.univ.filter (fun k => M.constraintOf k = i),
          AD.const (M.R k) * M.impulsesAD v k * M.impulsesAD v k

/-- `EvalCostGradient` evaluated in dual-number arithmetic: its derivative
matrix is the forward-mode automatic-differentiation Hessian of the cost,
exactly what the test extracts with `ExtractGradient(EvalCostGradient)`. -/
def gradAD (M : SapModelData nv nc) (v : Fin nv → ℚ) : Fin nv → AD nv :=
  fun i =>
    (∑ j, AD.const (M.A i j) * (vSeed v j - AD.const (M.vstar j))) -
      ∑ k, AD.const (M.J k i) * M.impulsesAD v k

end SapModelData

/-- Modelled from the spec: an evaluation context (`systems::Context`) for a
SAP model. Its single free variable is the reduced generalized velocity; a
fresh context made by `MakeContext` has no velocity set yet. Derived
quantities are pure functions of the velocity and are recomputed from it on
demand, so the cache-invalidation contract is represented by deriving
everything from `velocities` alone. -/
structure SapContext (nv : ℕ) where
  velocities : Option (Fin nv → ℚ)

/-- Modelled from the spec: `SapModel::MakeContext()`; no velocity set. -/
def SapModelData.MakeContext (nv : ℕ) : SapContext nv := ⟨none⟩

/-- Modelled from the spec: `SapModel::SetVelocities(v, context)`: overwrites
the context's velocity (invalidating all cached derived quantities). -/
def SapModelData.SetVelocities {nv : ℕ} (v : Fin nv → ℚ) (_ctx : SapContext nv) :
    SapContext nv := ⟨some v⟩

/-- Modelled from the spec: `SapModel::GetVelocities(context)`. -/
def SapModelData.GetVelocities {nv : ℕ} (ctx : SapContext nv) : Option (Fin nv → ℚ) :=
  ctx.velocities

/-- Modelled from the spec: evaluating the cost on a context is a
precondition violation, reported at the call site, when no velocity has been
set. -/
def SapModelData.EvalCostChecked {nv nc : ℕ} (M : SapModelData nv nc) (ctx : SapContext nv) :
    Except String ℚ :=
  match ctx.velocities with
  | none => .error "SetVelocities must be called before evaluating the cost"
  | some v => .ok (M.EvalCost v)

/-- Modelled from the spec: evaluating the gradient on a context with no
velocity set is a precondition violation reported at the call site. -/
def SapModelData.EvalCostGradientChecked {nv nc : ℕ} (M : SapModelData nv nc)
    (ctx : SapContext nv) : Except String (Fin nv → ℚ) :=
  match ctx.velocities with
  | none => .error "SetVelocities must be called before evaluating the gradient"
  | some v => .ok (M.EvalCostGradient v)

/-- Modelled from the spec: evaluating the impulses on a context with no
velocity set is a precondition violation reported at the call site. -/
def SapModelData.EvalImpulsesChecked {nv nc : ℕ} (M : SapModelData nv nc)
    (ctx : SapContext nv) : Except String (Fin nc → ℚ) :=
  match ctx.velocities with
  | none => .error "SetVelocities must be called before evaluating the impulses"
  | some v => .ok (M.EvalImpulses v)

/-- Modelled from the spec: the structural data of one constraint in a raw
contact problem: the clique it references, an optional second distinct
clique, and its number of constraint equations. -/
structure SapConstraintRef where
  firstClique : ℕ
  secondClique : Option ℕ
  numEquations : ℕ
deriving DecidableEq

/-- The list of cliques a constraint references (one or two). -/
def SapConstraintRef.cliques (c : SapConstraintRef) : List ℕ :=
  c.firstClique :: (match c.secondClique with | some j => [j] | none => [])

/-- Modelled from the spec: the structural data of a raw contact problem fed
to the model's construction: the clique count, each clique's velocity count
and the ordered constraints. -/
structure SapProblemShape where
  numCliques : ℕ
  cliqueSize : ℕ → ℕ
  constraints : List SapConstraintRef

/-- Modelled from the spec: a clique participates iff it is referenced by at
least one constraint. -/
def SapProblemShape.participating (p : SapProblemShape) (i : ℕ) : Prop :=
  ∃ c ∈ p.constraints, i ∈ c.cliques

instance (p : SapProblemShape) (i : ℕ) : Decidable (p.participating i) :=
  List.decidableBEx _ p.constraints

/-- Modelled from the spec: a cluster of the clique–constraint incidence
graph: the participating cliques it holds and the indices of the constraints
whose equations belong to it, both in first-appearance order. -/
structure SapCluster where
  cliques : List ℕ
  constraintIndices : List ℕ

/-- Does a constraint referencing cliques `cs` share a clique with the
cluster? -/
def clusterTouches (cs : List ℕ) (cl : SapCluster) : Bool :=
  cs.any fun x => decide (x ∈ cl.cliques)

/-- Modelled from the spec: inserting constraint `ci` (referencing cliques
`cs`) into the running cluster list: the first cluster sharing a clique with
the constraint absorbs every later such cluster together with the
constraint's yet-unseen cliques (a two-clique constraint merges the clusters
of its cliques); a constraint touching no cluster opens a new cluster at the
end. Cluster order therefore follows the first-appearance order of each
cluster's first constituent. -/
def insertConstraintIntoClusters (cs : List ℕ) (ci : ℕ) :
    List SapCluster → List SapCluster
  | [] => [⟨cs.dedup, [ci]⟩]
  | cl :: rest =>
    if clusterTouches cs cl then
      ⟨cl.cliques ++ (rest.filter (clusterTouches cs)).flatMap SapCluster.cliques ++
          cs.dedup.filter fun x =>
            !decide (x ∈ cl.cliques ++
              (rest.filter (clusterTouches cs)).flatMap SapCluster.cliques),
        cl.constraintIndices ++
          (rest.filter (clusterTouches cs)).flatMap SapCluster.constraintIndices ++ [ci]⟩ ::
        rest.filter fun c => !clusterTouches cs c
    else
      cl :: insertConstraintIntoClusters cs ci rest

/-- Folds the constraints, numbered from `i`, into the running cluster
list. -/
def clustersAux : List SapConstraintRef → ℕ → List SapCluster → List SapCluster
  | [], _, acc => acc
  | c :: rest, i, acc => clustersAux rest (i + 1) (insertConstraintIntoClusters c.cliques i acc)

/-- Modelled from the spec: the connected-component clusters of the
clique–constraint incidence graph, emitted in the order their first
constituent constraint is encountered while scanning constraints in the
caller-supplied order. -/
def SapProblemShape.clusters (p : SapProblemShape) : List SapCluster :=
  clustersAux p.constraints 0 []

/-- Modelled from the spec: the participating cliques in cluster order: the
reduced-to-original index map of the velocities permutation. -/
def SapProblemShape.cliqueOrder (p : SapProblemShape) : List ℕ :=
  p.clusters.flatMap SapCluster.cliques

/-- Modelled from the spec: the constraint indices in cluster order: the
reduced-to-original index map of the constraints permutation. -/
def SapProblemShape.constraintOrder (p : SapProblemShape) : List ℕ :=
  p.clusters.flatMap SapCluster.constraintIndices

/-- Total velocity count of the original problem. -/
def SapProblemShape.numVelocities (p : SapProblemShape) : ℕ :=
  ∑ i ∈ Finset.range p.numCliques, p.cliqueSize i

/-- Modelled from the spec: the reduced model's velocity count: the sizes of
the participating cliques only, in cluster order. -/
def SapProblemShape.reducedNumVelocities (p : SapProblemShape) : ℕ :=
  (p.cliqueOrder.map p.cliqueSize).sum

/-- Modelled from the spec: the reduced model's constraint-equation count:
the equation counts of the constraints in cluster order. -/
def SapProblemShape.reducedNumConstraintEquations (p : SapProblemShape) : ℕ :=
  (p.constraintOrder.map fun k =>
    ((p.constraints[k]?).map SapConstraintRef.numEquations).getD 0).sum

/-- Modelled from the spec: `PartialPermutation::Apply`: from data blocked
per original clique (or constraint), keep only the participating blocks,
reordered into cluster order, each block's contents untouched. `order` is
the permutation's reduced-to-original index map. -/
def permutationApply {α : Type} (order : List ℕ) (x : ℕ → α) : List α :=
  order.map x

/-- Modelled from the spec: the inverse application of a partial
permutation: each reduced block is written back to its original position;
positions outside the participating subset keep their prior (`base`)
contents. -/
def permutationApplyInverse {α : Type} : List ℕ → List α → (ℕ → α) → ℕ → α
  | o :: os, r :: rs, base => fun i =>
      if i = o then r else permutationApplyInverse os rs base i
  | _, _, base => base

/-- The spring-mass test problem's structural data: two 3-velocity cliques
(two 3D particles), one spring constraint with three equations on clique 0
only. -/
def springMassShape : SapProblemShape :=
  { numCliques := 2
    cliqueSize := fun _ => 3
    constraints := [⟨0, none, 3⟩] }

/-- Modelled from the spec: the reduced per-cluster dynamics data of a built
model: for each participating clique, in cluster order, its square dynamics
block and its slice of the reduced free-motion velocity. -/
structure ReducedDynamicsData (m : ℕ) (s : Fin m → ℕ) where
  Ablock : ∀ i, Matrix (Fin (s i)) (Fin (s i)) ℚ
  vstarBlock : ∀ i, Fin (s i) → ℚ

/-- Modelled from the spec: the reduced momentum `p* = A·v*`, precomputed at
construction per cluster block (the dynamics matrix is stored per clique). -/
def ReducedDynamicsData.pstar {m s} (d : ReducedDynamicsData m s) : ∀ i, Fin (s i) → ℚ :=
  fun i => (d.Ablock i).mulVec (d.vstarBlock i)

/-- The dense block-diagonal dynamics matrix the per-cluster blocks assemble
into. -/
def ReducedDynamicsData.denseA {m s} (d : ReducedDynamicsData m s) :
    Matrix ((i : Fin m) × Fin (s i)) ((i : Fin m) × Fin (s i)) ℚ :=
  Matrix.blockDiagonal' d.Ablock

/-- The reduced free-motion velocity as one dense vector. -/
def ReducedDynamicsData.denseVstar {m s} (d : ReducedDynamicsData m s) :
    ((i : Fin m) × Fin (s i)) → ℚ :=
  fun q => d.vstarBlock q.1 q.2

/-- The reduced momentum as one dense vector. -/
def ReducedDynamicsData.densePstar {m s} (d : ReducedDynamicsData m s) :
    ((i : Fin m) × Fin (s i)) → ℚ :=
  fun q => d.pstar q.1 q.2

/-- Modelled from the spec: what one constraint contributes to the Delassus
diagonal approximation: its equation count `ni` and, per referenced clique
(one or two), the clique index and that clique's Jacobian block. -/
structure DelassusConstraintData (m : ℕ) (s : Fin m → ℕ) where
  ni : ℕ
  clique1 : Fin m
  J1 : Matrix (Fin ni) (Fin (s clique1)) ℝ
  second : Option ((c : Fin m) × Matrix (Fin ni) (Fin (s c)) ℝ)

/-- Frobenius norm of a square real matrix. -/
noncomputable def frobeniusNorm {n : ℕ} (M : Matrix (Fin n) (Fin n) ℝ) : ℝ :=
  Real.sqrt (∑ i, ∑ j, M i j ^ 2)

/-- Modelled from the spec: constraint i's local compliance operator
`Wᵢ = Σ over its one or two cliques of (Jacobian)·A⁻¹·(Jacobianᵗ)`; the
dense Delassus operator is never formed, `A⁻¹` acts only on the constraint's
own Jacobian blocks. -/
noncomputable def DelassusConstraintData.W {m s} (A : ∀ i : Fin m, Matrix (Fin (s i)) (Fin (s i)) ℝ)
    (c : DelassusConstraintData m s) : Matrix (Fin c.ni) (Fin c.ni) ℝ :=
  c.J1 * (A c.clique1)⁻¹ * c.J1.transpose +
    match c.second with
    | none => 0
    | some jc => jc.2 * (A jc.1)⁻¹ * jc.2.transpose

/-- Modelled from the spec: the Delassus diagonal approximation: one scalar
per constraint, in the model's cluster constraint order (the order of
`cons`): `wᵢ = ‖Wᵢ‖_F / nᵢ`. -/
noncomputable def delassusDiagonalApproximation {m s} (A : ∀ i : Fin m, Matrix (Fin (s i)) (Fin (s i)) ℝ)
    (cons : List (DelassusConstraintData m s)) : List ℝ :=
  cons.map fun c => frobeniusNorm (c.W A) / c.ni

/-- The single spring constraint of the spring-mass test: three equations,
identity Jacobian, on the only participating clique. -/
noncomputable def springDelassusConstraint : DelassusConstraintData 1 (fun _ => 3) :=
  ⟨3, 0, 1, none⟩

/-- The participating clique's dynamics matrix in the spring-mass test: a
scalar mass times the identity. -/
noncomputable def springMassDelassusA (mass : ℝ) : ∀ _ : Fin 1, Matrix (Fin 3) (Fin 3) ℝ :=
  fun _ => mass • 1

/-- The optional-defaults record `InitialValueProblem::OdeContext` of the
wrapped vector problem: initial time t₀, initial state vector 𝐱₀ and
parameter vector 𝐤, each possibly unset. -/
structure OdeContext where
  t0 : Option ℚ
  x0 : Option (List ℚ)
  k : Option (List ℚ)

/-- The record `ScalarInitialValueProblem::ScalarOdeContext`: initial time
t₀, scalar initial state x₀ and parameter vector 𝐤, each possibly unset. -/
structure ScalarOdeContext where
  t0 : Option ℚ
  x0 : Option ℚ
  k : Option (List ℚ)

/-- Embedded from `scalar_initial_value_problem.h`,
`ScalarInitialValueProblem::ToVectorIVPOdeContext`: copies `k` and `t0`
unchanged and, when a scalar initial state is present, wraps it as the
single-dimension vector `VectorX::Constant(1, x0)`; otherwise the vector
initial state stays unset. -/
def ToVectorIVPOdeContext (values : ScalarOdeContext) : OdeContext :=
  { t0 := values.t0
    x0 := match values.x0 with
      | some x => some [x]
      | none => none
    k := values.k }

/-- Embedded from the deprecated `ScalarInitialValueProblem` constructor:
the scalar ODE function f is wrapped as the vector ODE function
`(t, x, k) ↦ VectorX::Constant(1, f(t, x[0], k))`. -/
def wrapScalarOdeFunction (f : ℚ → ℚ → List ℚ → ℚ) : ℚ → List ℚ → List ℚ → List ℚ :=
  fun t x k => [f t x.headI k]

/-- Embedded from the deprecated `ScalarInitialValueProblem::Solve(tf,
values)`: delegates to the wrapped vector problem's `Solve` (external to
this repository, here the parameter `vectorSolve`) and returns component 0
of its solution vector. -/
def scalarSolve (vectorSolve : ℚ → OdeContext → List ℚ) (tf : ℚ)
    (values : ScalarOdeContext) : ℚ :=
  (vectorSolve tf (ToVectorIVPOdeContext values)).headI

/-- Embedded from `ScalarViewDenseOutput`: a scalar view of one dimension of
a vector dense output (a vector-valued function of time). -/
def scalarViewDenseOutput (dense : ℚ → List ℚ) (dim : ℕ) : ℚ → ℚ :=
  fun t => (dense t).getD dim 0

/-- Embedded from the deprecated `ScalarInitialValueProblem::DenseSolve(tf,
values)`: delegates to the wrapped vector problem's `DenseSolve` (the
parameter `vectorDenseSolve`) and wraps the resulting vector dense output in
a scalar view of dimension `kDimension = 0`. -/
def scalarDenseSolve (vectorDenseSolve : ℚ → OdeContext → ℚ → List ℚ) (tf : ℚ)
    (values : ScalarOdeContext) : ℚ → ℚ :=
  scalarViewDenseOutput (vectorDenseSolve tf (ToVectorIVPOdeContext values)) 0

/-- A concrete one-velocity, one-equation model used to exhibit inputs
satisfying the claim theorems' hypotheses. -/
def witnessModel : SapModelData 1 1 :=
  { A := Matrix.of fun _ _ => 2
    vstar := fun _ => 1
    J := Matrix.of fun _ _ => 3
    R := fun _ => 2
    vhat := fun _ => 1
    proj := fun _ => .max0
    numConstraints := 1
    constraintOf := fun _ => 0 }

/-- A concrete velocity for the witness model. -/
def witnessV : Fin 1 → ℚ := fun _ => 5

/-- The concrete velocity (1, 2, 3) of the state-access test. -/
def witnessV3 : Fin 3 → ℚ := ![1, 2, 3]

/-- A one-clique, one-constraint Delassus input (scalar blocks) used to
exhibit inputs satisfying the Delassus claim theorem's hypotheses. -/
noncomputable def witnessDelassusA : ∀ _ : Fin 1, Matrix (Fin 1) (Fin 1) ℝ := fun _ => 1

/-- Its single constraint: one equation, identity Jacobian, one clique. -/
noncomputable def witnessDelassusConstraint : DelassusConstraintData 1 (fun _ => 1) :=
  ⟨1, 0, 1, none⟩

namespace AD

@[ext]
theorem ext {n} {a b : AD n} (h1 : a.val = b.val) (h2 : ∀ j, a.der j = b.der j) : a = b := by
  cases a; cases b
  simp_all
  exact funext h2

@[simp] theorem add_val {n} (a b : AD n) : (a + b).val = a.val + b.val := rfl

@[simp] theorem add_der {n} (a b : AD n) (j : Fin n) : (a + b).der j = a.der j + b.der j := rfl

@[simp] theorem zero_val {n} : (0 : AD n).val = 0 := rfl

@[simp] theorem zero_der {n} (j : Fin n) : (0 : AD n).der j = 0 := rfl

@[simp] theorem neg_val {n} (a : AD n) : (-a).val = -a.val := rfl

@[simp] theorem neg_der {n} (a : AD n) (j : Fin n) : (-a).der j = -a.der j := rfl

@[simp] theorem sub_val {n} (a b : AD n) : (a - b).val = a.val - b.val := rfl

@[simp] theorem sub_der {n} (a b : AD n) (j : Fin n) : (a - b).der j = a.der j - b.der j := rfl

@[simp] theorem mul_val {n} (a b : AD n) : (a * b).val = a.val * b.val := rfl

@[simp] theorem mul_der {n} (a b : AD n) (j : Fin n) :
    (a * b).der j = a.val * b.der j + b.val * a.der j := rfl

@[simp] theorem const_val {n} (c : ℚ) : (const (n := n) c).val = c := rfl

@[simp] theorem const_der {n} (c : ℚ) (j : Fin n) : (const (n := n) c).der j = 0 := rfl

theorem val_sum {n} {α : Type} (s : Finset α) (f : α → AD n) :
    (∑ x ∈ s, f x).val = ∑ x ∈ s, (f x).val := map_sum valHom f s

theorem der_sum {n} {α : Type} (s : Finset α) (f : α → AD n) (j : Fin n) :
    (∑ x ∈ s, f x).der j = ∑ x ∈ s, (f x).der j := map_sum (derHom j) f s

end AD

namespace SapModelData

variable {nv nc : ℕ}

theorem proj_mul_dapply (p : SapProjection) (y : ℚ) : p.apply y * p.dapply y = p.apply y := by
  cases p
  · simp [SapProjection.apply, SapProjection.dapply]
  · simp only [SapProjection.apply, SapProjection.dapply]
    split_ifs <;> ring

theorem constraintVelocitiesAD_val (M : SapModelData nv nc) (v : Fin nv → ℚ) (k : Fin nc) :
    (M.constraintVelocitiesAD v k).val = M.constraintVelocities v k := by
  simp [constraintVelocitiesAD, constraintVelocities, AD.val_sum, Matrix.mulVec,
    Matrix.dotProduct, vSeed]

theorem constraintVelocitiesAD_der (M : SapModelData nv nc) (v : Fin nv → ℚ) (k : Fin nc)
    (j : Fin nv) : (M.constraintVelocitiesAD v k).der j = M.J k j := by
  simp [constraintVelocitiesAD, AD.der_sum, vSeed, mul_ite, Finset.sum_ite_eq]

theorem unprojectedImpulsesAD_val (M : SapModelData nv nc) (v : Fin nv → ℚ) (k : Fin nc) :
    (M.unprojectedImpulsesAD v k).val = M.unprojectedImpulses v k := by
  simp [unprojectedImpulsesAD, unprojectedImpulses, constraintVelocitiesAD_val]

theorem unprojectedImpulsesAD_der (M : SapModelData nv nc) (v : Fin nv → ℚ) (k : Fin nc)
    (j : Fin nv) : (M.unprojectedImpulsesAD v k).der j = -(M.R k)⁻¹ * M.J k j := by
  simp [unprojectedImpulsesAD, constraintVelocitiesAD_der]

theorem impulsesAD_val (M : SapModelData nv nc) (v : Fin nv → ℚ) (k : Fin nc) :
    (M.impulsesAD v k).val = M.EvalImpulses v k := by
  unfold impulsesAD EvalImpulses
  cases h : M.proj k <;>
    simp [SapProjection.applyAD, SapProjection.apply, apply_ite AD.val,
      unprojectedImpulsesAD_val]

theorem impulsesAD_der (M : SapModelData nv nc) (v : Fin nv → ℚ) (k : Fin nc) (j : Fin nv) :
    (M.impulsesAD v k).der j =
      (M.proj k).dapply (M.unprojectedImpulses v k) * (-(M.R k)⁻¹ * M.J k j) := by
  unfold impulsesAD
  cases h : M.proj k
  · simp [SapProjection.applyAD, SapProjection.dapply, unprojectedImpulsesAD_der]
  · simp only [SapProjection.applyAD, SapProjection.dapply,
      apply_ite (fun a : AD nv => a.der j), AD.zero_der, unprojectedImpulsesAD_der,
      unprojectedImpulsesAD_val]
    split_ifs <;> ring

theorem quadRowAD_val (M : SapModelData nv nc) (v : Fin nv → ℚ) (i : Fin nv) :
    (∑ j, AD.const (M.A i j) * (vSeed v j - AD.const (M.vstar j))).val =
      ∑ j, M.A i j * (v j - M.vstar j) := by
  simp [AD.val_sum, vSeed]

theorem quadRowAD_der (M : SapModelData nv nc) (v : Fin nv → ℚ) (i j : Fin nv) :
    (∑ l, AD.const (M.A i l) * (vSeed v l - AD.const (M.vstar l))).der j = M.A i j := by
  simp [AD.der_sum, vSeed, mul_ite, Finset.sum_ite_eq]

theorem costAD_val (M : SapModelData nv nc) (v : Fin nv → ℚ) :
    (M.costAD v).val = M.EvalCost v := by
  simp [costAD, EvalCost, EvalMomentumCost, AD.val_sum, impulsesAD_val, Matrix.dotProduct,
    Matrix.mulVec, vSeed]

theorem costAD_der (M : SapModelData nv nc) (v : Fin nv → ℚ) (hA : M.A.IsSymm)
    (hR : ∀ k, 0 < M.R k) (hcon : ∀ k, M.constraintOf k < M.numConstraints) (j : Fin nv) :
    (M.costAD v).der j = M.EvalCostGradient v j := by
  have hval : ∀ i, (vSeed v i - AD.const (M.vstar i)).val = v i - M.vstar i := by
    intro i; simp [vSeed]
  have hder : ∀ i, (vSeed v i - AD.const (M.vstar i)).der j = if j = i then 1 else 0 := by
    intro i; simp [vSeed]
  have hmom : (∑ i, (vSeed v i - AD.const (M.vstar i)) *
      ∑ l, AD.const (M.A i l) * (vSeed v l - AD.const (M.vstar l))).der j =
      2 * ∑ l, M.A j l * (v l - M.vstar l) := by
    rw [AD.der_sum]
    have hterm : ∀ i, ((vSeed v i - AD.const (M.vstar i)) *
        ∑ l, AD.const (M.A i l) * (vSeed v l - AD.const (M.vstar l))).der j =
        (v i - M.vstar i) * M.A i j +
          (∑ l, M.A i l * (v l - M.vstar l)) * (if j = i then 1 else 0) := by
      intro i
      rw [AD.mul_der, hval, hder, quadRowAD_der, quadRowAD_val]
    rw [Finset.sum_congr rfl fun i _ => hterm i, Finset.sum_add_distrib]
    have h1 : ∑ i, (v i - M.vstar i) * M.A i j = ∑ l, M.A j l * (v l - M.vstar l) := by
      refine Finset.sum_congr rfl fun i _ => ?_
      rw [← hA.apply j i]
      ring
    have h2 : ∑ i, (∑ l, M.A i l * (v l - M.vstar l)) * (if j = i then 1 else 0) =
        ∑ l, M.A j l * (v l - M.vstar l) := by
      rw [Finset.sum_congr rfl fun i _ => mul_ite _ _ _ _]
      simp [Finset.sum_ite_eq]
    rw [h1, h2]
    ring
  have hreg : (∑ i ∈ Finset.range M.numConstraints,
      ∑ k ∈ Finset.univ.filter (fun k => M.constraintOf k = i),
        AD.const (M.R k) * M.impulsesAD v k * M.impulsesAD v k).der j =
      2 * -∑ k, M.J k j * M.EvalImpulses v k := by
    rw [AD.der_sum]
    rw [Finset.sum_congr rfl fun i _ => AD.der_sum _ _ j]
    rw [Finset.sum_fiberwise_of_maps_to (fun k _ => Finset.mem_range.2 (hcon k))]
    have hterm : ∀ k, (AD.const (M.R k) * M.impulsesAD v k * M.impulsesAD v k).der j =
        2 * -(M.J k j * M.EvalImpulses v k) := by
      intro k
      rw [AD.mul_der, AD.mul_der, AD.mul_val, AD.const_val, AD.const_der, impulsesAD_val,
        impulsesAD_der]
      have hRk : M.R k * (M.R k)⁻¹ = 1 := mul_inv_cancel₀ (hR k).ne'
      have hgd : M.EvalImpulses v k * (M.proj k).dapply (M.unprojectedImpulses v k) =
          M.EvalImpulses v k := by
        simp only [EvalImpulses]
        exact proj_mul_dapply _ _
      calc M.R k * M.EvalImpulses v k *
            ((M.proj k).dapply (M.unprojectedImpulses v k) * (-(M.R k)⁻¹ * M.J k j)) +
            M.EvalImpulses v k * (M.R k * ((M.proj k).dapply (M.unprojectedImpulses v k) *
              (-(M.R k)⁻¹ * M.J k j)) + M.EvalImpulses v k * 0)
          = 2 * (M.EvalImpulses v k * (M.proj k).dapply (M.unprojectedImpulses v k)) *
              M.J k j * (M.R k * (M.R k)⁻¹) * (-1) := by ring
        _ = 2 * -(M.J k j * M.EvalImpulses v k) := by rw [hgd, hRk]; ring
    rw [Finset.sum_congr rfl fun k _ => hterm k, ← Finset.mul_sum, ← Finset.sum_neg_distrib]
  rw [costAD, AD.add_der, AD.mul_der, AD.mul_der, AD.const_val, AD.const_der, hmom, hreg]
  rw [EvalCostGradient, EvalMomentumGain, EvalGeneralizedImpulses]
  simp only [Matrix.mulVec, Matrix.dotProduct, Matrix.transpose_apply]
  ring

theorem gradAD_val (M : SapModelData nv nc) (v : Fin nv → ℚ) (i : Fin nv) :
    (M.gradAD v i).val = M.EvalCostGradient v i := by
  simp [gradAD, EvalCostGradient, EvalMomentumGain, EvalGeneralizedImpulses, AD.val_sum,
    impulsesAD_val, Matrix.mulVec, Matrix.dotProduct, Matrix.transpose_apply, vSeed]

theorem gradAD_der (M : SapModelData nv nc) (v : Fin nv → ℚ) (i j : Fin nv) :
    (M.gradAD v i).der j = M.hessianMatrix v i j := by
  have hterm : ∀ k, (AD.const (M.J k i) * M.impulsesAD v k).der j =
      -(M.J k i * ((M.proj k).dapply (M.unprojectedImpulses v k) * (M.R k)⁻¹ * M.J k j)) := by
    intro k
    rw [AD.mul_der, AD.const_val, AD.const_der, impulsesAD_der, impulsesAD_val]
    ring
  have hrhs : ∀ k, M.J.transpose i k *
      (Matrix.diagonal (M.constraintsHessianDiag v) * M.J) k j =
      M.J k i * ((M.proj k).dapply (M.unprojectedImpulses v k) * (M.R k)⁻¹ * M.J k j) := by
    intro k
    rw [Matrix.diagonal_mul, Matrix.transpose_apply, constraintsHessianDiag]
  rw [gradAD, AD.sub_der, quadRowAD_der, AD.der_sum]
  rw [Finset.sum_congr rfl fun k _ => hterm k]
  rw [hessianMatrix, Matrix.add_apply, Matrix.mul_apply]
  rw [Finset.sum_congr rfl fun k _ => hrhs k]
  rw [Finset.sum_neg_distrib, sub_neg_eq_add]

end SapModelData

theorem flatMap_filter_perm {α β : Type} (p : α → Bool) (f : α → List β) (l : List α) :
    List.Perm ((l.filter p).flatMap f ++ (l.filter fun a => !p a).flatMap f) (l.flatMap f) := by
  induction l with
  | nil => simp
  | cons a l ih =>
    cases h : p a
    · simp only [List.filter_cons, h, Bool.false_eq_true, if_false, Bool.not_false, if_true,
        List.flatMap_cons]
      exact (List.perm_append_comm_assoc _ _ _).trans ((ih.append_left (f a)).append_left [] |>.trans (by simp))
    · simp only [List.filter_cons, h, if_true, Bool.not_true, Bool.false_eq_true, if_false,
        List.flatMap_cons, List.append_assoc]
      exact ih.append_left (f a)

theorem insert_flatMap_cliques_perm (cs : List ℕ) (ci : ℕ) (acc : List SapCluster) :
    List.Perm ((insertConstraintIntoClusters cs ci acc).flatMap SapCluster.cliques)
      (acc.flatMap SapCluster.cliques ++
        (cs.dedup.filter fun x => !decide (x ∈ acc.flatMap SapCluster.cliques))) := by
  induction acc with
  | nil => simp [insertConstraintIntoClusters]
  | cons cl rest ih =>
    simp only [insertConstraintIntoClusters]
    by_cases h : clusterTouches cs cl
    · rw [if_pos h]
      simp only [List.flatMap_cons]
      have hTU : List.Perm
          ((rest.filter (clusterTouches cs)).flatMap SapCluster.cliques ++
            (rest.filter fun c => !clusterTouches cs c).flatMap SapCluster.cliques)
          (rest.flatMap SapCluster.cliques) := flatMap_filter_perm _ _ rest
      have hN : (cs.dedup.filter fun x => !decide (x ∈ cl.cliques ++
            (rest.filter (clusterTouches cs)).flatMap SapCluster.cliques)) =
          (cs.dedup.filter fun x =>
            !decide (x ∈ cl.cliques ++ rest.flatMap SapCluster.cliques)) := by
        refine List.filter_congr fun x hx => ?_
        have hxcs : x ∈ cs := List.mem_dedup.1 hx
        congr 1
        rw [decide_eq_decide]
        simp only [List.mem_append]
        constructor
        · rintro (hc | hT)
          · exact Or.inl hc
          · obtain ⟨c', hc', hxc'⟩ := List.mem_flatMap.1 hT
            exact Or.inr (List.mem_flatMap.2 ⟨c', (List.mem_filter.1 hc').1, hxc'⟩)
        · rintro (hc | hR)
          · exact Or.inl hc
          · obtain ⟨c', hc', hxc'⟩ := List.mem_flatMap.1 hR
            refine Or.inr (List.mem_flatMap.2 ⟨c', List.mem_filter.2 ⟨hc', ?_⟩, hxc'⟩)
            exact List.any_eq_true.2 ⟨x, hxcs, by simpa using hxc'⟩
      rw [hN]
      have hstep1 : List.Perm
          ((cl.cliques ++ (rest.filter (clusterTouches cs)).flatMap SapCluster.cliques ++
              (cs.dedup.filter fun x =>
                !decide (x ∈ cl.cliques ++ rest.flatMap SapCluster.cliques))) ++
            (rest.filter fun c => !clusterTouches cs c).flatMap SapCluster.cliques)
          ((cl.cliques ++ (rest.filter (clusterTouches cs)).flatMap SapCluster.cliques) ++
            ((rest.filter fun c => !clusterTouches cs c).flatMap SapCluster.cliques ++
              (cs.dedup.filter fun x =>
                !decide (x ∈ cl.cliques ++ rest.flatMap SapCluster.cliques)))) := by
        rw [List.append_assoc
          (cl.cliques ++ (rest.filter (clusterTouches cs)).flatMap SapCluster.cliques)]
        exact List.Perm.append_left _ List.perm_append_comm
      have hstep2 : List.Perm
          ((cl.cliques ++ (rest.filter (clusterTouches cs)).flatMap SapCluster.cliques) ++
            ((rest.filter fun c => !clusterTouches cs c).flatMap SapCluster.cliques ++
              (cs.dedup.filter fun x =>
                !decide (x ∈ cl.cliques ++ rest.flatMap SapCluster.cliques))))
          ((cl.cliques ++ rest.flatMap SapCluster.cliques) ++
            (cs.dedup.filter fun x =>
              !decide (x ∈ cl.cliques ++ rest.flatMap SapCluster.cliques))) := by
        rw [← List.append_assoc, List.append_assoc cl.cliques]
        exact List.Perm.append_right _ (List.Perm.append_left _ hTU)
      exact hstep1.trans hstep2
    · rw [if_neg h]
      simp only [List.flatMap_cons]
      have hcl : ∀ x ∈ cs, x ∉ cl.cliques := by
        intro x hx hmem
        exact h (List.any_eq_true.2 ⟨x, hx, by simpa using hmem⟩)
      have hN : (cs.dedup.filter fun x => !decide (x ∈ rest.flatMap SapCluster.cliques)) =
          (cs.dedup.filter fun x =>
            !decide (x ∈ cl.cliques ++ rest.flatMap SapCluster.cliques)) := by
        refine List.filter_congr fun x hx => ?_
        have hxcs : x ∈ cs := List.mem_dedup.1 hx
        congr 1
        rw [decide_eq_decide]
        simp only [List.mem_append]
        exact ⟨Or.inr, fun hc => hc.elim (fun hc => absurd hc (hcl x hxcs)) id⟩
      refine (List.Perm.append_left _ ih).trans ?_
      rw [hN, ← List.append_assoc]

theorem insert_flatMap_constraints_perm (cs : List ℕ) (ci : ℕ) (acc : List SapCluster) :
    List.Perm ((insertConstraintIntoClusters cs ci acc).flatMap SapCluster.constraintIndices)
      (acc.flatMap SapCluster.constraintIndices ++ [ci]) := by
  induction acc with
  | nil => simp [insertConstraintIntoClusters]
  | cons cl rest ih =>
    simp only [insertConstraintIntoClusters]
    by_cases h : clusterTouches cs cl
    · rw [if_pos h]
      simp only [List.flatMap_cons]
      have hTU : List.Perm
          ((rest.filter (clusterTouches cs)).flatMap SapCluster.constraintIndices ++
            (rest.filter fun c => !clusterTouches cs c).flatMap SapCluster.constraintIndices)
          (rest.flatMap SapCluster.constraintIndices) := flatMap_filter_perm _ _ rest
      have hstep1 : List.Perm
          ((cl.constraintIndices ++
              (rest.filter (clusterTouches cs)).flatMap SapCluster.constraintIndices ++ [ci]) ++
            (rest.filter fun c => !clusterTouches cs c).flatMap SapCluster.constraintIndices)
          ((cl.constraintIndices ++
              (rest.filter (clusterTouches cs)).flatMap SapCluster.constraintIndices) ++
            ((rest.filter fun c => !clusterTouches cs c).flatMap SapCluster.constraintIndices ++
              [ci])) := by
        rw [List.append_assoc
          (cl.constraintIndices ++
            (rest.filter (clusterTouches cs)).flatMap SapCluster.constraintIndices)]
        exact List.Perm.append_left _ List.perm_append_comm
      have hstep2 : List.Perm
          ((cl.constraintIndices ++
              (rest.filter (clusterTouches cs)).flatMap SapCluster.constraintIndices) ++
            ((rest.filter fun c => !clusterTouches cs c).flatMap SapCluster.constraintIndices ++
              [ci]))
          ((cl.constraintIndices ++ rest.flatMap SapCluster.constraintIndices) ++ [ci]) := by
        rw [← List.append_assoc, List.append_assoc cl.constraintIndices]
        exact List.Perm.append_right _ (List.Perm.append_left _ hTU)
      exact hstep1.trans hstep2
    · rw [if_neg h]
      simp only [List.flatMap_cons]
      refine (List.Perm.append_left _ ih).trans ?_
      rw [← List.append_assoc]

theorem clustersAux_mem_flatCliques (L : List SapConstraintRef) (i : ℕ) (acc : List SapCluster)
    (x : ℕ) : x ∈ (clustersAux L i acc).flatMap SapCluster.cliques ↔
      x ∈ acc.flatMap SapCluster.cliques ∨ ∃ c ∈ L, x ∈ c.cliques := by
  induction L generalizing i acc with
  | nil => simp [clustersAux]
  | cons c rest ih =>
    rw [clustersAux, ih]
    have hmem : x ∈ (insertConstraintIntoClusters c.cliques i acc).flatMap SapCluster.cliques ↔
        x ∈ acc.flatMap SapCluster.cliques ∨ x ∈ c.cliques := by
      rw [(insert_flatMap_cliques_perm c.cliques i acc).mem_iff]
      simp only [List.mem_append, List.mem_filter, List.mem_dedup, Bool.not_eq_true',
        decide_eq_false_iff_not]
      constructor
      · rintro (ha | ⟨hc, _⟩)
        · exact Or.inl ha
        · exact Or.inr hc
      · rintro (ha | hc)
        · exact Or.inl ha
        · by_cases hx : x ∈ acc.flatMap SapCluster.cliques
          · exact Or.inl hx
          · exact Or.inr ⟨hc, hx⟩
    rw [hmem]
    simp only [List.mem_cons]
    constructor
    · rintro ((ha | hc) | ⟨c', hc', hxc'⟩)
      · exact Or.inl ha
      · exact Or.inr ⟨c, Or.inl rfl, hc⟩
      · exact Or.inr ⟨c', Or.inr hc', hxc'⟩
    · rintro (ha | ⟨c', hc' | hc', hxc'⟩)
      · exact Or.inl (Or.inl ha)
      · exact Or.inl (Or.inr (hc' ▸ hxc'))
      · exact Or.inr ⟨c', hc', hxc'⟩

theorem clustersAux_flatCliques_nodup (L : List SapConstraintRef) (i : ℕ)
    (acc : List SapCluster) (h : (acc.flatMap SapCluster.cliques).Nodup) :
    ((clustersAux L i acc).flatMap SapCluster.cliques).Nodup := by
  induction L generalizing i acc with
  | nil => exact h
  | cons c rest ih =>
    rw [clustersAux]
    refine ih _ _ ((insert_flatMap_cliques_perm c.cliques i acc).nodup_iff.2 ?_)
    refine List.Nodup.append h (c.cliques.nodup_dedup.filter _) ?_
    intro x hx hx2
    have := (List.mem_filter.1 hx2).2
    simp only [Bool.not_eq_true', decide_eq_false_iff_not] at this
    exact this hx

theorem clustersAux_constraints_perm (L : List SapConstraintRef) (i : ℕ)
    (acc : List SapCluster) :
    List.Perm ((clustersAux L i acc).flatMap SapCluster.constraintIndices)
      (acc.flatMap SapCluster.constraintIndices ++ List.range' i L.length) := by
  induction L generalizing i acc with
  | nil => simp [clustersAux]
  | cons c rest ih =>
    rw [clustersAux]
    refine (ih _ _).trans ?_
    refine (List.Perm.append_right _ (insert_flatMap_constraints_perm c.cliques i acc)).trans ?_
    rw [List.append_assoc]
    rfl

theorem permutationApplyInverse_point {α : Type} (order : List ℕ) (x : ℕ → α) (i : ℕ) :
    permutationApplyInverse order (permutationApply order x) x i = x i := by
  induction order with
  | nil => rfl
  | cons o os ih =>
    show (if i = o then x o else permutationApplyInverse os (os.map x) x i) = x i
    split_ifs with h
    · rw [h]
    · exact ih

theorem cliqueOrder_nodup (p : SapProblemShape) : p.cliqueOrder.Nodup :=
  clustersAux_flatCliques_nodup _ _ _ (by simp)

theorem mem_cliqueOrder (p : SapProblemShape) (x : ℕ) :
    x ∈ p.cliqueOrder ↔ p.participating x := by
  rw [SapProblemShape.cliqueOrder, SapProblemShape.clusters, clustersAux_mem_flatCliques]
  simp [SapProblemShape.participating]

theorem constraintOrder_perm_range (p : SapProblemShape) :
    List.Perm p.constraintOrder (List.range p.constraints.length) := by
  have h := clustersAux_constraints_perm p.constraints 0 []
  simpa [SapProblemShape.constraintOrder, SapProblemShape.clusters,
    List.range_eq_range'] using h

theorem ReducedDynamicsData.denseA_mulVec {m : ℕ} {s : Fin m → ℕ}
    (d : ReducedDynamicsData m s) : d.denseA.mulVec d.denseVstar = d.densePstar := by
  funext q
  obtain ⟨i, j⟩ := q
  simp only [Matrix.mulVec, Matrix.dotProduct, ReducedDynamicsData.denseA,
    ReducedDynamicsData.denseVstar, ReducedDynamicsData.densePstar, ReducedDynamicsData.pstar]
  rw [← Finset.univ_sigma_univ, Finset.sum_sigma]
  rw [Finset.sum_eq_single_of_mem i (Finset.mem_univ i)]
  · rw [Finset.sum_congr rfl fun j' _ => by
      rw [Matrix.blockDiagonal'_apply_eq (fun i => d.Ablock i) i j j']]
  · intro b _ hb
    refine Finset.sum_eq_zero fun j' _ => ?_
    rw [Matrix.blockDiagonal'_apply_ne (fun i => d.Ablock i) j j' (Ne.symm hb), zero_mul]

/-- C5: for every contact problem the reduced model's velocity count is at
most the original problem's, with equality iff every clique participates in
at least one constraint; non-participating cliques are dropped entirely (the
reduced clique order holds participating cliques only), and the spring-mass
example (two 3-velocity cliques, one constrained) reduces to exactly 1
clique, 3 velocities, 1 constraint, 3 constraint equations. -/
theorem sap_reduction_velocity_count (p : SapProblemShape)
    (hvalid : ∀ c ∈ p.constraints, ∀ i ∈ c.cliques, i < p.numCliques)
    (hsz : ∀ i < p.numCliques, 0 < p.cliqueSize i) :
    (p.reducedNumVelocities ≤ p.numVelocities ∧
      (p.reducedNumVelocities = p.numVelocities ↔ ∀ i < p.numCliques, p.participating i)) ∧
    (∀ i ∈ p.cliqueOrder, p.participating i) ∧
    (springMassShape.clusters.length = 1 ∧ springMassShape.cliqueOrder = [0] ∧
      springMassShape.reducedNumVelocities = 3 ∧ springMassShape.constraintOrder = [0] ∧
      springMassShape.reducedNumConstraintEquations = 3) := by
  have hnodup : p.cliqueOrder.Nodup := cliqueOrder_nodup p
  have hmem : ∀ x, x ∈ p.cliqueOrder ↔ p.participating x := mem_cliqueOrder p
  have hsub : p.cliqueOrder.toFinset ⊆ Finset.range p.numCliques := by
    intro x hx
    rw [List.mem_toFinset, hmem] at hx
    obtain ⟨c, hc, hxc⟩ := hx
    exact Finset.mem_range.2 (hvalid c hc x hxc)
  have hsumred : p.reducedNumVelocities = ∑ x ∈ p.cliqueOrder.toFinset, p.cliqueSize x :=
    (List.sum_toFinset _ hnodup).symm
  refine ⟨⟨?_, ?_⟩, fun i hi => (hmem i).1 hi, by decide, by decide, by decide, by decide,
    by decide⟩
  · rw [hsumred]
    exact Finset.sum_le_sum_of_subset hsub
  · constructor
    · intro heq i hi
      have hsd := Finset.sum_sdiff (f := p.cliqueSize) hsub
      have h0 : ∑ x ∈ Finset.range p.numCliques \ p.cliqueOrder.toFinset, p.cliqueSize x = 0 := by
        rw [hsumred] at heq
        unfold SapProblemShape.numVelocities at heq
        omega
      by_contra hnp
      have hmemsd : i ∈ Finset.range p.numCliques \ p.cliqueOrder.toFinset := by
        refine Finset.mem_sdiff.2 ⟨Finset.mem_range.2 hi, fun hin => ?_⟩
        exact hnp ((hmem i).1 (List.mem_toFinset.1 hin))
      have h00 := (Finset.sum_eq_zero_iff.1 h0) i hmemsd
      have := hsz i hi
      omega
    · intro hall
      have hsup : Finset.range p.numCliques ⊆ p.cliqueOrder.toFinset := fun x hx =>
        List.mem_toFinset.2 ((hmem x).2 (hall x (Finset.mem_range.1 hx)))
      rw [hsumred, Finset.Subset.antisymm hsub hsup]
      rfl

/-- C6: the velocities and constraints permutations are bijections on the
participating subset: the reduced index maps are duplicate-free, the
velocities map holds exactly the participating cliques (in cluster order)
and the constraints map is a permutation of all constraint indices; Apply
only reorders blocks without touching their contents, and applying then
inverse-applying restores the original ordering, for any input. -/
theorem sap_permutations_bijective (p : SapProblemShape) :
    (p.cliqueOrder.Nodup ∧ p.constraintOrder.Nodup ∧
      (∀ x, x ∈ p.cliqueOrder ↔ p.participating x) ∧
      List.Perm p.constraintOrder (List.range p.constraints.length)) ∧
    (∀ (α : Type) (x : ℕ → α) (k : ℕ),
      (permutationApply p.cliqueOrder x)[k]? = (p.cliqueOrder[k]?).map x) ∧
    (∀ (α : Type) (x : ℕ → α),
      permutationApplyInverse p.cliqueOrder (permutationApply p.cliqueOrder x) x = x) ∧
    (∀ (α : Type) (x : ℕ → α),
      permutationApplyInverse p.constraintOrder (permutationApply p.constraintOrder x) x = x) := by
  refine ⟨⟨cliqueOrder_nodup p, ?_, mem_cliqueOrder p, constraintOrder_perm_range p⟩,
    fun α x k => List.getElem?_map x p.cliqueOrder k,
    fun α x => funext fun i => permutationApplyInverse_point p.cliqueOrder x i,
    fun α x => funext fun i => permutationApplyInverse_point p.constraintOrder x i⟩
  exact (constraintOrder_perm_range p).nodup_iff.2 (List.nodup_range _)

/-- C7: for every built model the precomputed reduced momentum `p*`, stored
per cluster block as `Aᵢ·v*ᵢ`, equals the product of the assembled
block-diagonal dynamics matrix with the reduced free-motion velocity,
exactly. -/
theorem sap_pstar_consistency {m : ℕ} {s : Fin m → ℕ} (d : ReducedDynamicsData m s) :
    d.denseA.mulVec d.denseVstar = d.densePstar :=
  d.denseA_mulVec

/-- C8: setting a velocity on a context and reading it back returns exactly
the vector that was set, for every velocity vector of the reduced size; in
particular setting (1, 2, 3) reads back exactly (1, 2, 3). -/
theorem sap_velocities_roundtrip :
    (∀ (nv : ℕ) (ctx : SapContext nv) (v : Fin nv → ℚ),
      SapModelData.GetVelocities (SapModelData.SetVelocities v ctx) = some v) ∧
    SapModelData.GetVelocities (SapModelData.SetVelocities witnessV3 (SapModelData.MakeContext 3)) =
      some ![1, 2, 3] :=
  ⟨fun _ _ _ => rfl, rfl⟩

/-- C9: evaluating the cost, the gradient or the impulses on a context on
which no velocity has been set is rejected as a precondition violation
reported at the call site (an error naming the missing `SetVelocities`
call), never silently tolerated; once a velocity is set the evaluation
succeeds. -/
theorem sap_eval_requires_velocities {nv nc : ℕ} (M : SapModelData nv nc) :
    M.EvalCostChecked (SapModelData.MakeContext nv) =
      Except.error "SetVelocities must be called before evaluating the cost" ∧
    M.EvalCostGradientChecked (SapModelData.MakeContext nv) =
      Except.error "SetVelocities must be called before evaluating the gradient" ∧
    M.EvalImpulsesChecked (SapModelData.MakeContext nv) =
      Except.error "SetVelocities must be called before evaluating the impulses" ∧
    (∀ (ctx : SapContext nv) (v : Fin nv → ℚ),
      M.EvalCostChecked (SapModelData.SetVelocities v ctx) = Except.ok (M.EvalCost v)) :=
  ⟨rfl, rfl, rfl, fun _ _ => rfl⟩

/-- C10: the deprecated scalar-context API of `ScalarInitialValueProblem` is
a faithful reduction to the wrapped one-dimensional vector problem: the
context conversion copies `t0` and `k` unchanged and maps a present scalar
`x0` to the length-one vector `[x0]` (leaving it unset otherwise); `Solve`
returns exactly component 0 of the vector solution; `DenseSolve` is the
scalar view of dimension 0 of the vector dense output; and the wrapped ODE
function packs the scalar derivative as a one-dimensional vector. -/
theorem scalar_ivp_refines_vector_ivp :
    (∀ values : ScalarOdeContext, (ToVectorIVPOdeContext values).t0 = values.t0) ∧
    (∀ values : ScalarOdeContext, (ToVectorIVPOdeContext values).k = values.k) ∧
    (∀ values : ScalarOdeContext,
      (ToVectorIVPOdeContext values).x0 = values.x0.map fun x => [x]) ∧
    (∀ (vectorSolve : ℚ → OdeContext → List ℚ) (tf : ℚ) (values : ScalarOdeContext),
      scalarSolve vectorSolve tf values = (vectorSolve tf (ToVectorIVPOdeContext values)).headI) ∧
    (∀ (vectorDenseSolve : ℚ → OdeContext → ℚ → List ℚ) (tf : ℚ) (values : ScalarOdeContext)
      (t : ℚ), scalarDenseSolve vectorDenseSolve tf values t =
        (vectorDenseSolve tf (ToVectorIVPOdeContext values) t).getD 0 0) ∧
    (∀ (f : ℚ → ℚ → List ℚ → ℚ) (t : ℚ) (x : List ℚ) (k : List ℚ),
      wrapScalarOdeFunction f t x k = [f t x.headI k]) := by
  refine ⟨fun values => rfl, fun values => rfl, fun values => ?_, fun _ _ _ => rfl,
    fun _ _ _ _ => rfl, fun _ _ _ _ => rfl⟩
  have h : (ToVectorIVPOdeContext values).x0 = match values.x0 with
      | some x => some [x]
      | none => none := rfl
  rw [h]
  cases values.x0 <;> rfl

/-- C1: for every built model (symmetric dynamics matrix, strictly positive
regularization) and every velocity v, the per-constraint Hessian blocks
`Gᵢ = (∂P/∂y)·Rᵢ⁻¹` assemble via `H = A + Jᵗ·G·J`, with `G` the
block-diagonal matrix of the blocks, into exactly the forward-mode
automatic-differentiation second derivative of `EvalCost`: the dual-number
evaluation of the cost gradient has value equal to the AD gradient of the
cost and derivative matrix equal to `H`, exactly (hence to machine precision
in floating point). -/
theorem sap_hessian_matches_autodiff {nv nc : ℕ} (M : SapModelData nv nc)
    (hA : M.A.IsSymm) (hR : ∀ k, 0 < M.R k)
    (hcon : ∀ k, M.constraintOf k < M.numConstraints) (v : Fin nv → ℚ) :
    (∀ i, (M.gradAD v i).val = (M.costAD v).der i) ∧
    (∀ i j, (M.gradAD v i).der j =
      (M.A + M.J.transpose * (Matrix.diagonal (M.constraintsHessianDiag v) * M.J)) i j) := by
  constructor
  · intro i
    rw [M.gradAD_val v i, M.costAD_der v hA hR hcon i]
  · intro i j
    exact M.gradAD_der v i j

/-- Exhibits concrete inputs satisfying the hypotheses of the Hessian claim
theorem: the one-velocity witness model is symmetric with positive
regularization, and its assembled Hessian agrees with the
automatic-differentiation second derivative there. -/
theorem sap_hessian_matches_autodiff_witness :
    witnessModel.A.IsSymm ∧ (∀ k, 0 < witnessModel.R k) ∧
    (witnessModel.gradAD witnessV 0).der 0 =
      (witnessModel.A + witnessModel.J.transpose *
        (Matrix.diagonal (witnessModel.constraintsHessianDiag witnessV) * witnessModel.J)) 0 0 :=
  ⟨Matrix.ext fun _ _ => rfl, fun _ => by norm_num [witnessModel],
    (sap_hessian_matches_autodiff witnessModel (Matrix.ext fun _ _ => rfl)
      (fun _ => by norm_num [witnessModel]) (fun _ => Nat.zero_lt_one) witnessV).2 0 0⟩

/-- C2: for every built model (symmetric dynamics matrix, strictly positive
regularization) and every velocity v, `EvalCostGradient` returns
`A·(v−v*) − Jᵗ·γ` with `γ = EvalImpulses`, and this analytic gradient equals
the forward-mode automatic-differentiation gradient of `EvalCost`, exactly
(hence to within floating-point epsilon), for arbitrary v and arbitrary
constraint mixes. -/
theorem sap_gradient_matches_autodiff {nv nc : ℕ} (M : SapModelData nv nc)
    (hA : M.A.IsSymm) (hR : ∀ k, 0 < M.R k)
    (hcon : ∀ k, M.constraintOf k < M.numConstraints) (v : Fin nv → ℚ) :
    (∀ i, M.EvalCostGradient v i =
      M.A.mulVec (fun j => v j - M.vstar j) i -
        M.J.transpose.mulVec (M.EvalImpulses v) i) ∧
    (∀ i, (M.costAD v).der i = M.EvalCostGradient v i) := by
  refine ⟨fun i => rfl, fun i => M.costAD_der v hA hR hcon i⟩

/-- Exhibits concrete inputs satisfying the hypotheses of the gradient claim
theorem: on the one-velocity witness model the automatic-differentiation
gradient of the cost coincides with the analytic gradient. -/
theorem sap_gradient_matches_autodiff_witness :
    witnessModel.A.IsSymm ∧ (∀ k, 0 < witnessModel.R k) ∧
    (witnessModel.costAD witnessV).der 0 = witnessModel.EvalCostGradient witnessV 0 :=
  ⟨Matrix.ext fun _ _ => rfl, fun _ => by norm_num [witnessModel],
    (sap_gradient_matches_autodiff witnessModel (Matrix.ext fun _ _ => rfl)
      (fun _ => by norm_num [witnessModel]) (fun _ => Nat.zero_lt_one) witnessV).2 0⟩

/-- C3: for every built model and every velocity v, `EvalCost` decomposes
additively into the momentum cost and the regularizer cost:
`EvalCost = 0.5·(v−v*)ᵗ·A·(v−v*) + 0.5·γᵗ·diag(R)·γ` with
`γ = EvalImpulses`, and `EvalMomentumCost = 0.5·(v−v*)ᵗ·A·(v−v*)`. -/
theorem sap_cost_decomposition {nv nc : ℕ} (M : SapModelData nv nc)
    (hcon : ∀ k, M.constraintOf k < M.numConstraints) (v : Fin nv → ℚ) :
    M.EvalCost v = (1 / 2) * Matrix.dotProduct (fun i => v i - M.vstar i)
        (M.A.mulVec (fun j => v j - M.vstar j)) +
      (1 / 2) * Matrix.dotProduct (M.EvalImpulses v)
        ((Matrix.diagonal M.R).mulVec (M.EvalImpulses v)) ∧
    M.EvalMomentumCost v = (1 / 2) * Matrix.dotProduct (fun i => v i - M.vstar i)
        (M.A.mulVec (fun j => v j - M.vstar j)) := by
  refine ⟨?_, rfl⟩
  rw [SapModelData.EvalCost]
  congr 1
  congr 1
  rw [Finset.sum_fiberwise_of_maps_to (fun k _ => Finset.mem_range.2 (hcon k))]
  rw [Matrix.dotProduct]
  exact Finset.sum_congr rfl fun k _ => by rw [Matrix.mulVec_diagonal]; ring

/-- Exhibits concrete inputs satisfying the hypothesis of the cost
decomposition claim theorem, instantiated on the one-velocity witness
model. -/
theorem sap_cost_decomposition_witness :
    (∀ k : Fin 1, witnessModel.constraintOf k < witnessModel.numConstraints) ∧
    witnessModel.EvalCost witnessV = (1 / 2) * Matrix.dotProduct
        (fun i => witnessV i - witnessModel.vstar i)
        (witnessModel.A.mulVec (fun j => witnessV j - witnessModel.vstar j)) +
      (1 / 2) * Matrix.dotProduct (witnessModel.EvalImpulses witnessV)
        ((Matrix.diagonal witnessModel.R).mulVec (witnessModel.EvalImpulses witnessV)) :=
  ⟨fun _ => Nat.zero_lt_one,
    (sap_cost_decomposition witnessModel (fun _ => Nat.zero_lt_one) witnessV).1⟩

theorem sandwich_diag {p q : ℕ} (J : Matrix (Fin p) (Fin q) ℝ) (B : Matrix (Fin q) (Fin q) ℝ)
    (r : Fin p) : (J * B * J.transpose) r r =
      Matrix.dotProduct (fun a => J r a) (B.mulVec fun a => J r a) := by
  simp only [Matrix.mul_apply, Matrix.transpose_apply, Matrix.mulVec, Matrix.dotProduct,
    Finset.sum_mul, Finset.mul_sum]
  rw [Finset.sum_comm]
  exact Finset.sum_congr rfl fun a _ => Finset.sum_congr rfl fun b _ => by ring

theorem delassus_W_diag_pos {m : ℕ} {s : Fin m → ℕ}
    (A : ∀ i : Fin m, Matrix (Fin (s i)) (Fin (s i)) ℝ) (hA : ∀ i, (A i).PosDef)
    (c : DelassusConstraintData m s) (hJ : c.J1 ≠ 0) (hn : 0 < c.ni) :
    0 < frobeniusNorm (c.W A) / (c.ni : ℝ) := by
  refine div_pos ?_ (by exact_mod_cast hn)
  have hrow : ∃ r, (fun a => c.J1 r a) ≠ 0 := by
    by_contra hcon
    push_neg at hcon
    refine hJ (Matrix.ext fun r a => ?_)
    simpa using congrFun (hcon r) a
  obtain ⟨r, hr⟩ := hrow
  have hterm1 : 0 < (c.J1 * (A c.clique1)⁻¹ * c.J1.transpose) r r := by
    rw [sandwich_diag]
    simpa using ((hA c.clique1).inv).2 (fun a => c.J1 r a) hr
  have hterm2 : 0 ≤ (match c.second with
      | none => (0 : Matrix (Fin c.ni) (Fin c.ni) ℝ)
      | some jc => jc.2 * (A jc.1)⁻¹ * jc.2.transpose) r r := by
    cases hs : c.second with
    | none => simp
    | some jc =>
      show 0 ≤ (jc.2 * (A jc.1)⁻¹ * jc.2.transpose) r r
      rw [sandwich_diag]
      simpa using ((hA jc.1).inv.posSemidef).2 (fun a => jc.2 r a)
  have hWrr : 0 < (c.W A) r r := by
    rw [DelassusConstraintData.W, Matrix.add_apply]
    exact add_pos_of_pos_of_nonneg hterm1 hterm2
  unfold frobeniusNorm
  refine Real.sqrt_pos.2 ?_
  refine Finset.sum_pos' (fun i _ => Finset.sum_nonneg fun j _ => sq_nonneg _)
    ⟨r, Finset.mem_univ r, ?_⟩
  refine Finset.sum_pos' (fun j _ => sq_nonneg _) ⟨r, Finset.mem_univ r, pow_pos hWrr 2⟩

theorem springMass_delassus_closed_form (mass : ℝ) (hm : 0 < mass) :
    delassusDiagonalApproximation (springMassDelassusA mass) [springDelassusConstraint] =
      [1 / (mass * Real.sqrt 3)] := by
  unfold delassusDiagonalApproximation
  rw [List.map_cons, List.map_nil]
  congr 1
  have hinv : (mass • (1 : Matrix (Fin 3) (Fin 3) ℝ))⁻¹ = mass⁻¹ • 1 := by
    apply Matrix.inv_eq_right_inv
    rw [Matrix.smul_mul, Matrix.mul_smul, smul_smul, mul_inv_cancel₀ hm.ne', Matrix.mul_one,
      one_smul]
  have hW : springDelassusConstraint.W (springMassDelassusA mass) = mass⁻¹ • 1 := by
    unfold DelassusConstraintData.W springDelassusConstraint springMassDelassusA
    rw [hinv, Matrix.transpose_one, Matrix.mul_one, Matrix.one_mul, add_zero]
  rw [hW]
  unfold frobeniusNorm
  show Real.sqrt (∑ i : Fin 3, ∑ j : Fin 3, ((mass⁻¹ • (1 : Matrix (Fin 3) (Fin 3) ℝ)) i j) ^ 2) /
      ((3 : ℕ) : ℝ) = 1 / (mass * Real.sqrt 3)
  have hsum : (∑ i : Fin 3, ∑ j : Fin 3, ((mass⁻¹ • (1 : Matrix (Fin 3) (Fin 3) ℝ)) i j) ^ 2) =
      3 * mass⁻¹ ^ 2 := by
    simp [Matrix.smul_apply, Matrix.one_apply, apply_ite (fun t : ℝ => (mass⁻¹ * t) ^ 2),
      Fin.sum_univ_succ]
  rw [hsum]
  rw [Real.sqrt_mul (by norm_num : (0:ℝ) ≤ 3), Real.sqrt_sq (inv_nonneg.2 hm.le)]
  have h3 : (0:ℝ) < Real.sqrt 3 := Real.sqrt_pos.2 (by norm_num)
  have hs : Real.sqrt 3 * Real.sqrt 3 = 3 := Real.mul_self_sqrt (by norm_num)
  have hmm : mass⁻¹ * mass = 1 := inv_mul_cancel₀ hm.ne'
  rw [Nat.cast_ofNat, div_eq_div_iff (by norm_num) (by positivity)]
  linear_combination (mass⁻¹ * mass) * hs + 3 * hmm

theorem delassus_regression_value :
    |1 / ((3 / 2 : ℝ) * Real.sqrt 3) - 0.3849| < 1 / 10000 := by
  have h1 : Real.sqrt 3 < 1.7320509 := by
    rw [show (1.7320509 : ℝ) = 1.7320509 from rfl, Real.sqrt_lt' (by norm_num)]
    norm_num
  have h2 : (1.7320508 : ℝ) < Real.sqrt 3 := by
    rw [Real.lt_sqrt (by norm_num)]
    norm_num
  have h3 : (0:ℝ) < Real.sqrt 3 := Real.sqrt_pos.2 (by norm_num)
  have hs : Real.sqrt 3 * Real.sqrt 3 = 3 := Real.mul_self_sqrt (by norm_num)
  have hval : 1 / ((3 / 2 : ℝ) * Real.sqrt 3) = 2 * Real.sqrt 3 / 9 := by
    rw [div_eq_div_iff (by positivity) (by norm_num)]
    nlinarith [hs]
  rw [hval, abs_sub_lt_iff]
  constructor <;> nlinarith [h1, h2, h3]

/-- C4: for every built model the Delassus diagonal approximation holds one
scalar per constraint, in the model's cluster constraint order, equal to
`wᵢ = ‖Wᵢ‖_F / nᵢ` where `Wᵢ` sums `J·A⁻¹·Jᵗ` over the constraint's one or
two cliques; each scalar is positive (for positive-definite dynamics blocks
and nonzero Jacobians); and for a single three-equation identity-Jacobian
constraint on a clique of scalar mass m it equals `1/(m·√3)`, which for
m = 1.5 is approximately 0.3849. -/
theorem sap_delassus_diagonal_approximation
    {m : ℕ} {s : Fin m → ℕ} (A : ∀ i : Fin m, Matrix (Fin (s i)) (Fin (s i)) ℝ)
    (cons : List (DelassusConstraintData m s))
    (hA : ∀ i, (A i).PosDef) (hJ : ∀ c ∈ cons, c.J1 ≠ 0) (hn : ∀ c ∈ cons, 0 < c.ni) :
    ((delassusDiagonalApproximation A cons).length = cons.length ∧
      (∀ k : ℕ, (delassusDiagonalApproximation A cons)[k]? =
        (cons[k]?).map fun c => frobeniusNorm (c.W A) / (c.ni : ℝ))) ∧
    (∀ w ∈ delassusDiagonalApproximation A cons, 0 < w) ∧
    (∀ mass : ℝ, 0 < mass →
      delassusDiagonalApproximation (springMassDelassusA mass) [springDelassusConstraint] =
        [1 / (mass * Real.sqrt 3)]) ∧
    |1 / ((3 / 2 : ℝ) * Real.sqrt 3) - 0.3849| < 1 / 10000 := by
  refine ⟨⟨List.length_map _ _, fun k => List.getElem?_map _ _ _⟩, ?_,
    springMass_delassus_closed_form, delassus_regression_value⟩
  intro w hw
  rw [delassusDiagonalApproximation, List.mem_map] at hw
  obtain ⟨c, hc, rfl⟩ := hw
  exact delassus_W_diag_pos A hA c (hJ c hc) (hn c hc)

/-- Exhibits concrete inputs satisfying the hypotheses of the Delassus claim
theorem: the identity dynamics block is positive definite and the witness
constraint's Jacobian is nonzero, so its Delassus scalar is positive. -/
theorem sap_delassus_diagonal_approximation_witness :
    (∀ i, (witnessDelassusA i).PosDef) ∧
    (∀ w ∈ delassusDiagonalApproximation witnessDelassusA [witnessDelassusConstraint], 0 < w) :=
  ⟨fun _ => Matrix.PosDef.one,
    (sap_delassus_diagonal_approximation witnessDelassusA [witnessDelassusConstraint]
      (fun _ => Matrix.PosDef.one)
      (fun c hc => by
        rw [List.mem_singleton] at hc
        subst hc
        show (1 : Matrix (Fin 1) (Fin 1) ℝ) ≠ 0
        exact one_ne_zero)
      (fun c hc => by
        rw [List.mem_singleton] at hc
        subst hc
        exact Nat.zero_lt_one)).2.1⟩

/-- Exhibits concrete inputs satisfying the hypotheses of the reduction
claim theorem: the spring-mass problem's constraints reference valid
cliques, its cliques have positive sizes, and its reduced velocity count is
bounded by the original. -/
theorem sap_reduction_velocity_count_witness :
    (∀ c ∈ springMassShape.constraints, ∀ i ∈ c.cliques, i < springMassShape.numCliques) ∧
    springMassShape.reducedNumVelocities ≤ springMassShape.numVelocities :=
  ⟨by decide, ((sap_reduction_velocity_count springMassShape (by decide) (by decide)).1).1⟩

